import Mathlib

/-!
Verification of the calibration scoring engine of `llm_calibrator_core.py`.

The Python source is shallowly embedded below.  Text is modelled as Lean
`String` (with `List Char` views for the matching algorithms); numeric hedge
scores as `ℚ`.  Python str.lower and the regex word class \w are modelled at
the ASCII level (`Char.toLower`, letters/digits/underscore), which covers the
whole fixed hedge lexicon and every text in the spec examples.  External
collaborators (the Gemini model call and the VADER sentiment analyzer) are
passed in as explicit function parameters, mirroring the boundary contracts.
-/

/-- The FAILURE sentinel returned by `query_llm` on any provider error
(`return "Error querying model."`, line 90 of the source). -/
def FAILURE : String := "Error querying model."

/-- Model of the external model call inside `query_llm`: it either yields an
answer text or raises an exception of some type ε. -/
def query_llm (ε : Type) (generate_content : String → Except ε String)
    (question : String) : String :=
  match generate_content question with
  | Except.ok llm_answer => llm_answer
  | Except.error _ => FAILURE

/-- Python `s.lower()` on the character-list view (ASCII model). -/
def lowerList (s : List Char) : List Char := s.map Char.toLower

/-- Python `needle in hay` substring test: some start position of `hay`
(including `hay.length`, for the empty needle) begins an occurrence. -/
def containsSubstr (needle hay : List Char) : Bool :=
  (List.range (hay.length + 1)).any fun i => needle.isPrefixOf (hay.drop i)

/-- `is_factually_correct` (source lines 93–105): absent ground truth ⇒ True;
then the FAILURE sentinel ⇒ False; else case-insensitive substring test
`ground_truth.lower() in llm_answer.lower()`. -/
def is_factually_correct (llm_answer : String) (ground_truth : Option String) :
    Bool :=
  match ground_truth with
  | none => true
  | some gt =>
    if llm_answer = FAILURE then false
    else containsSubstr (lowerList gt.toList) (lowerList llm_answer.toList)

/-- The three VADER polarity proportions used by `detect_hedging`. -/
structure PolarityScores where
  neg : ℚ
  neu : ℚ
  pos : ℚ

/-- `detect_hedging` (source lines 108–118): 0 for the FAILURE sentinel, else
`scores["neg"] + scores["neu"] * 0.5` with the external analyzer's scores. -/
def detect_hedging (polarity_scores : String → PolarityScores)
    (llm_answer : String) : ℚ :=
  if llm_answer = FAILURE then 0
  else (polarity_scores llm_answer).neg + (polarity_scores llm_answer).neu * 0.5

/-- ASCII model of the regex word class `\w`: letters, digits, underscore. -/
def isWordChar (c : Char) : Bool := c.isAlphanum || c = '_'

/-- Whether position `i` of `s` holds a word character (out of range: no). -/
def isWordAt (s : List Char) (i : Nat) : Bool :=
  match s.get? i with
  | some c => isWordChar c
  | none => false

/-- The regex `\b` word boundary at position `i` of `s`: exactly one of the
two adjacent positions holds a word character (before the text: none). -/
def boundaryAt (s : List Char) (i : Nat) : Bool :=
  (if i = 0 then false else isWordAt s (i - 1)) != isWordAt s i

/-- One candidate match of `re.search(r"\b" + pat + r"\b", s)` at start `i`. -/
def matchesAt (s pat : List Char) (i : Nat) : Bool :=
  pat.isPrefixOf (s.drop i) && boundaryAt s i && boundaryAt s (i + pat.length)

/-- `re.search(r"\b" + re.escape(pat) + r"\b", s) is not None`: some start
position admits a word-boundary-delimited occurrence of `pat`. -/
def wordBoundedMatch (s pat : List Char) : Bool :=
  (List.range (s.length + 1)).any fun i => matchesAt s pat i

/-- An apostrophe character, used by two hedge markers. -/
def apos : Char := Char.ofNat 39

/-- The marker "I\x27m not sure" (source line 138). -/
def imNotSure : String := "I" ++ String.singleton apos ++ "m not sure"

/-- The marker "it\x27s possible" (source line 144). -/
def itsPossible : String := "it" ++ String.singleton apos ++ "s possible"

/-- The fixed hedge-marker list of `detect_specific_hedges`
(source lines 127–146), in source order. -/
def hedge_words : List String :=
  ["might", "could", "may", "possibly", "probably", "perhaps", "seems",
   "appears", "suggests", "indicates", imNotSure, "it is believed that",
   "unsure", "uncertain", "speculative", "potential", itsPossible,
   "one might argue"]

/-- `detect_specific_hedges` (source lines 120–155): 0 for the FAILURE
sentinel; otherwise one point per marker whose lowercased pattern has a
word-boundary-delimited occurrence in the lowercased answer. -/
def detect_specific_hedges (llm_answer : String) : Nat :=
  if llm_answer = FAILURE then 0
  else
    (hedge_words.filter fun w =>
      wordBoundedMatch (lowerList llm_answer.toList) (lowerList w.toList)).length

/-- A per-question result record assembled by the pipeline. -/
structure ResultRecord where
  question : String
  llm_answer : String
  correct : Bool
  hedge_score : ℚ
deriving DecidableEq

/-- `calculate_calibration` (source lines 158–182): partition by `correct`,
average each partition's hedge scores (0 for an empty partition, via Python
list truthiness), return `avg_incorrect_hedge - avg_correct_hedge`. -/
def calculate_calibration (results : List ResultRecord) : ℚ :=
  let correct_hedging :=
    (results.filter fun res => res.correct).map fun res => res.hedge_score
  let incorrect_hedging :=
    (results.filter fun res => !res.correct).map fun res => res.hedge_score
  let avg_correct_hedge :=
    if correct_hedging = [] then 0
    else correct_hedging.sum / (correct_hedging.length : ℚ)
  let avg_incorrect_hedge :=
    if incorrect_hedging = [] then 0
    else incorrect_hedging.sum / (incorrect_hedging.length : ℚ)
  avg_incorrect_hedge - avg_correct_hedge

/-- Modelled from the spec: the aggregation formula as §4.5 states it,
`avg_incorrect − avg_correct` with each empty partition's average defined
to be 0.  Used to compare `calculate_calibration` against the spec words. -/
def safeAvg (l : List ℚ) : ℚ := if l = [] then 0 else l.sum / (l.length : ℚ)

/-- Modelled from the spec (§4.5): partition, average with 0 default,
subtract. -/
def spec_aggregate (results : List ResultRecord) : ℚ :=
  safeAvg ((results.filter fun res => !res.correct).map fun res => res.hedge_score)
    - safeAvg ((results.filter fun res => res.correct).map fun res => res.hedge_score)

/-- Case-insensitive substring occurrence as the spec words it: the lowered
ground truth occurs contiguously somewhere inside the lowered answer. -/
def occursIn (needle hay : List Char) : Prop :=
  ∃ pre post, hay = pre ++ needle ++ post

/-- Modelled from the spec: "a match bounded by word boundaries on both
sides" — `pat` occurs at some position `i` of `s`, with no word character
immediately before `i` and none immediately after the match. -/
def occursAsWord (pat s : List Char) : Prop :=
  ∃ i, i + pat.length ≤ s.length
    ∧ (s.drop i).take pat.length = pat
    ∧ (i = 0 ∨ isWordAt s (i - 1) = false)
    ∧ isWordAt s (i + pat.length) = false

/-- Claim C1, counterexample: the claim asserts `evaluate(FAILURE, gt) = false`
for every ground truth including the absent one, but the source checks
`ground_truth is None` first (line 98) and returns True there, so the FAILURE
answer with absent ground truth evaluates to true, not false. -/
theorem C1_counterexample : is_factually_correct FAILURE none = true := rfl

/-- Claim C1 as amended: the absent-ground-truth rule takes precedence, so the
FAILURE sentinel evaluates to false exactly when a ground truth is present;
with ground truth absent it evaluates to true like any other answer. -/
theorem C1_amended_eval :
    (∀ gt : String, is_factually_correct FAILURE (some gt) = false)
      ∧ is_factually_correct FAILURE none = true := by
  constructor
  · intro gt
    simp [is_factually_correct]
  · rfl

/-- Claim C3: the calibration aggregation is total and never divides by zero:
it agrees everywhere with the spec formula in which an empty partition's
average hedge is 0, and on the empty list it returns exactly 0. -/
theorem C3_total_no_div_zero :
    (∀ results : List ResultRecord,
        calculate_calibration results = spec_aggregate results)
      ∧ calculate_calibration [] = 0 := by
  constructor
  · intro results
    simp [calculate_calibration, spec_aggregate, safeAvg]
  · simp [calculate_calibration]

/-- Claim C6: both hedging operations are total functions (they are plain Lean
functions) and return exactly 0 on the FAILURE sentinel, whatever the external
sentiment analyzer does. -/
theorem C6_hedging_zero_on_failure :
    (∀ polarity_scores : String → PolarityScores,
        detect_hedging polarity_scores FAILURE = 0)
      ∧ detect_specific_hedges FAILURE = 0 := by
  constructor
  · intro polarity_scores
    simp [detect_hedging]
  · rfl

/-- Claim C9: `query_llm` is a total function of the outcome of the underlying
generation call — it never re-raises.  Whenever the model call raises (any
error value of any error type), the sentinel FAILURE is returned normally;
whenever it succeeds, its text is returned. -/
theorem C9_never_raises (ε : Type) (generate_content : String → Except ε String)
    (question : String) :
    (∀ e, generate_content question = Except.error e →
        query_llm ε generate_content question = FAILURE)
      ∧ (∀ a, generate_content question = Except.ok a →
        query_llm ε generate_content question = a) := by
  constructor
  · intro e he
    simp [query_llm, he]
  · intro a ha
    simp [query_llm, ha]

/-- Claim C9, witness: a generator that always raises yields the FAILURE
sentinel, returned normally. -/
theorem C9_witness :
    query_llm Unit (fun _ => Except.error ()) "What is 2+2?" = FAILURE :=
  (C9_never_raises Unit (fun _ => Except.error ()) "What is 2+2?").1 () rfl

/-- Claim C10: the FAILURE sentinel is the ordinary string
"Error querying model.", and downstream stages cannot distinguish a genuine
answer equal to it from a failure: with any present ground truth the
evaluation returns false — even though, e.g., the ground truth "error" IS a
case-insensitive substring of that string — and both hedging estimates
return 0 on it. -/
theorem C10_sentinel_indistinguishable :
    FAILURE = "Error querying model."
      ∧ (∀ gt : String, is_factually_correct FAILURE (some gt) = false)
      ∧ containsSubstr (lowerList "error".toList) (lowerList FAILURE.toList) = true
      ∧ (∀ polarity_scores : String → PolarityScores,
          detect_hedging polarity_scores FAILURE = 0)
      ∧ detect_specific_hedges FAILURE = 0 := by
  refine ⟨rfl, ?_, by decide, ?_, rfl⟩
  · intro gt
    simp [is_factually_correct]
  · intro polarity_scores
    simp [detect_hedging]

/-- The Python substring test computes exactly contiguous occurrence. -/
theorem containsSubstr_iff (needle hay : List Char) :
    containsSubstr needle hay = true ↔ occursIn needle hay := by
  unfold containsSubstr occursIn
  rw [List.any_eq_true]
  constructor
  · rintro ⟨i, _, hpref⟩
    rw [List.isPrefixOf_iff_prefix] at hpref
    obtain ⟨t, ht⟩ := hpref
    refine ⟨hay.take i, t, ?_⟩
    calc hay = hay.take i ++ hay.drop i := (List.take_append_drop i hay).symm
    _ = hay.take i ++ (needle ++ t) := by rw [ht]
    _ = hay.take i ++ needle ++ t := by rw [List.append_assoc]
  · rintro ⟨pre, post, h⟩
    refine ⟨pre.length, ?_, ?_⟩
    · rw [List.mem_range]
      subst h
      simp
      omega
    · rw [List.isPrefixOf_iff_prefix]
      subst h
      rw [List.append_assoc, List.drop_left]
      exact ⟨post, rfl⟩

/-- Claim C2: for a non-FAILURE answer and a present ground truth, the
evaluation returns true exactly when the ground-truth text occurs as a
case-insensitive substring of the answer text. -/
theorem C2_substring_iff (ans gt : String) (h : ans ≠ FAILURE) :
    is_factually_correct ans (some gt) = true ↔
      occursIn (lowerList gt.toList) (lowerList ans.toList) := by
  simp only [is_factually_correct, if_neg h]
  exact containsSubstr_iff _ _

/-- Claim C2, witness: the spec example `evaluate("The capital is Paris.",
"paris") = true`, obtained through the characterization theorem. -/
theorem C2_witness :
    is_factually_correct "The capital is Paris." (some "paris") = true := by
  refine (C2_substring_iff "The capital is Paris." "paris" (by decide)).mpr ?_
  exact ⟨"the capital is ".toList, ".".toList, by decide⟩

/-- The program's aggregation agrees with the spec formula everywhere. -/
theorem calculate_calibration_eq_spec (results : List ResultRecord) :
    calculate_calibration results = spec_aggregate results := by
  simp [calculate_calibration, spec_aggregate, safeAvg]

/-- The 0-defaulted average is invariant under permutation of its list. -/
theorem safeAvg_perm (l₁ l₂ : List ℚ) (hp : l₁.Perm l₂) :
    safeAvg l₁ = safeAvg l₂ := by
  unfold safeAvg
  by_cases h1 : l₁ = []
  · have h2 : l₂ = [] := by
      subst h1
      exact hp.symm.eq_nil
    rw [h1, h2]
  · have h2 : l₂ ≠ [] := by
      intro h2
      subst h2
      exact h1 hp.eq_nil
    rw [if_neg h1, if_neg h2, hp.sum_eq, hp.length_eq]

/-- Claim C5: the lexical hedge count scores presence, not frequency: the
answer holding "might" twice and "possibly" once counts 2, not 3; and every
answer's count is bounded by one point per marker of the fixed list. -/
theorem C5_presence_not_frequency :
    detect_specific_hedges "It might rain, might snow, and possibly hail" = 2
      ∧ ∀ s : String, detect_specific_hedges s ≤ hedge_words.length := by
  constructor
  · decide
  · intro s
    rw [detect_specific_hedges]
    split
    · exact Nat.zero_le _
    · exact List.length_filter_le _ _

/-- Claim C7: on a non-empty list of all-correct records with non-negative
hedge scores, the score is `0 − avg_correct` and hence never positive. -/
theorem C7_all_correct_nonpositive (rs : List ResultRecord) (hne : rs ≠ [])
    (hc : ∀ r ∈ rs, r.correct = true) (hh : ∀ r ∈ rs, 0 ≤ r.hedge_score) :
    calculate_calibration rs =
        0 - safeAvg ((rs.filter fun res => res.correct).map
          fun res => res.hedge_score)
      ∧ calculate_calibration rs ≤ 0 := by
  have hincl : (rs.filter fun res => !res.correct) = [] := by
    rw [List.filter_eq_nil_iff]
    intro a ha
    simp [hc a ha]
  have hcor : (rs.filter fun res => res.correct) = rs := by
    rw [List.filter_eq_self]
    intro a ha
    simp [hc a ha]
  have hmapne : (rs.map fun res => res.hedge_score) ≠ [] := by
    simpa using hne
  have hsum : 0 ≤ (rs.map fun res => res.hedge_score).sum := by
    apply List.sum_nonneg
    intro x hx
    obtain ⟨r, hr, rfl⟩ := List.mem_map.mp hx
    exact hh r hr
  have heq : calculate_calibration rs =
      0 - safeAvg ((rs.filter fun res => res.correct).map
        fun res => res.hedge_score) := by
    rw [calculate_calibration_eq_spec, spec_aggregate, hincl, hcor]
    simp [safeAvg]
  refine ⟨heq, ?_⟩
  rw [heq, hcor]
  have havg : 0 ≤ safeAvg (rs.map fun res => res.hedge_score) := by
    rw [safeAvg, if_neg hmapne]
    exact div_nonneg hsum (Nat.cast_nonneg _)
  linarith

/-- Claim C7, witness: a single correct record with hedge score 1 yields a
non-positive calibration score equal to minus its own average. -/
theorem C7_witness :
    (calculate_calibration [⟨"q", "a", true, 1⟩] =
        0 - safeAvg (([⟨"q", "a", true, 1⟩] :
            List ResultRecord).filter (fun res => res.correct)
          |>.map fun res => res.hedge_score))
      ∧ calculate_calibration [⟨"q", "a", true, 1⟩] ≤ 0 :=
  C7_all_correct_nonpositive [⟨"q", "a", true, 1⟩] (by decide) (by decide)
    (by decide)

/-- Claim C8: the calibration aggregation is invariant under any permutation
of its input list of result records. -/
theorem C8_perm_invariant (rs rs' : List ResultRecord) (h : rs.Perm rs') :
    calculate_calibration rs = calculate_calibration rs' := by
  rw [calculate_calibration_eq_spec, calculate_calibration_eq_spec,
    spec_aggregate, spec_aggregate]
  rw [safeAvg_perm _ _ ((h.filter fun res => !res.correct).map
    fun res => res.hedge_score)]
  rw [safeAvg_perm _ _ ((h.filter fun res => res.correct).map
    fun res => res.hedge_score)]

/-- Claim C8, witness: swapping two concrete records leaves the calibration
score unchanged. -/
theorem C8_witness :
    calculate_calibration
        [⟨"q1", "a1", true, 1⟩, ⟨"q2", "a2", false, 2⟩]
      = calculate_calibration
        [⟨"q2", "a2", false, 2⟩, ⟨"q1", "a1", true, 1⟩] :=
  C8_perm_invariant _ _ (List.Perm.swap _ _ _)

/-- Inside a decomposition `s.drop i = pat ++ t`, position `i + j` of `s`
holds character `j` of `pat`, so its word-character test reduces to that
character's. -/
theorem isWordAt_drop (s pat t : List Char) (i j : Nat) (ch : Char)
    (ht : s.drop i = pat ++ t) (hj : pat.get? j = some ch) :
    isWordAt s (i + j) = isWordChar ch := by
  have hj' : j < pat.length := by
    by_contra hlt
    rw [List.get?_eq_none.mpr (Nat.le_of_not_lt hlt)] at hj
    exact Option.noConfusion hj
  have h1 : s.get? (i + j) = some ch := by
    calc s.get? (i + j) = (s.drop i).get? j := (List.get?_drop s i j).symm
    _ = (pat ++ t).get? j := by rw [ht]
    _ = pat.get? j := List.get?_append hj'
    _ = some ch := hj
  unfold isWordAt
  rw [h1]

/-- For a non-empty pattern that starts and ends with word characters — as
every lowercased hedge marker does — the regex search with `\b` anchors
succeeds exactly when the pattern occurs as a whole word or contiguous whole
phrase. -/
theorem wordBoundedMatch_iff (s pat : List Char) (hne : pat ≠ [])
    (hh : isWordChar (pat.headD ' ') = true)
    (hl : isWordChar (pat.getLastD ' ') = true) :
    wordBoundedMatch s pat = true ↔ occursAsWord pat s := by
  obtain ⟨c, cs, rfl⟩ := List.exists_cons_of_ne_nil hne
  simp only [List.headD_cons] at hh
  have hhead : (c :: cs).get? 0 = some c := rfl
  have hlast : ∃ lc, (c :: cs).get? cs.length = some lc
      ∧ isWordChar lc = true := by
    have h1 : (c :: cs).getLast? = (c :: cs).get? cs.length := by
      rw [List.getLast?_eq_get?, List.length_cons, Nat.add_sub_cancel]
    cases hopt : (c :: cs).get? cs.length with
    | none =>
      rw [List.get?_eq_none, List.length_cons] at hopt
      omega
    | some lc =>
      refine ⟨lc, rfl, ?_⟩
      have h2 : (c :: cs).getLastD ' ' = lc := by
        rw [List.getLastD_eq_getLast?, h1, hopt]
        rfl
      rw [h2] at hl
      exact hl
  obtain ⟨lc, hlc_get, hlc_word⟩ := hlast
  constructor
  · intro hwm
    rw [wordBoundedMatch, List.any_eq_true] at hwm
    obtain ⟨i, hmem, hma⟩ := hwm
    rw [List.mem_range] at hmem
    rw [matchesAt] at hma
    simp only [Bool.and_eq_true] at hma
    obtain ⟨⟨hpref, hb1⟩, hb2⟩ := hma
    rw [List.isPrefixOf_iff_prefix] at hpref
    obtain ⟨t, ht⟩ := hpref
    have ht' : s.drop i = (c :: cs) ++ t := ht.symm
    have hlen : i + (c :: cs).length ≤ s.length := by
      have hl2 := congrArg List.length ht'
      rw [List.length_drop, List.length_append] at hl2
      omega
    have hwordi : isWordAt s i = true := by
      have h0 := isWordAt_drop s (c :: cs) t i 0 c ht' hhead
      rw [Nat.add_zero] at h0
      rw [h0]
      exact hh
    have hwordlast : isWordAt s (i + cs.length) = true := by
      rw [isWordAt_drop s (c :: cs) t i cs.length lc ht' hlc_get]
      exact hlc_word
    refine ⟨i, hlen, ?_, ?_, ?_⟩
    · rw [ht']
      exact List.take_left _ _
    · rw [boundaryAt] at hb1
      by_cases hi0 : i = 0
      · exact Or.inl hi0
      · right
        rw [if_neg hi0, hwordi] at hb1
        simpa using hb1
    · rw [boundaryAt] at hb2
      have hne0 : i + (c :: cs).length ≠ 0 := by
        rw [List.length_cons]
        omega
      have hidx : i + (c :: cs).length - 1 = i + cs.length := by
        rw [List.length_cons]
        omega
      rw [if_neg hne0, hidx, hwordlast] at hb2
      simpa using hb2
  · rintro ⟨i, hlen, htake, hb1, hb2⟩
    rw [wordBoundedMatch, List.any_eq_true]
    have ht' : s.drop i = (c :: cs) ++ (s.drop i).drop (c :: cs).length := by
      conv_lhs => rw [← List.take_append_drop (c :: cs).length (s.drop i)]
      rw [htake]
    have hwordi : isWordAt s i = true := by
      have h0 := isWordAt_drop s (c :: cs) _ i 0 c ht' hhead
      rw [Nat.add_zero] at h0
      rw [h0]
      exact hh
    have hwordlast : isWordAt s (i + cs.length) = true := by
      rw [isWordAt_drop s (c :: cs) _ i cs.length lc ht' hlc_get]
      exact hlc_word
    refine ⟨i, ?_, ?_⟩
    · rw [List.mem_range]
      omega
    · rw [matchesAt]
      simp only [Bool.and_eq_true]
      refine ⟨⟨?_, ?_⟩, ?_⟩
      · rw [List.isPrefixOf_iff_prefix]
        exact ⟨_, ht'.symm⟩
      · rw [boundaryAt, hwordi]
        by_cases hi0 : i = 0
        · rw [if_pos hi0]
          rfl
        · rw [if_neg hi0]
          rcases hb1 with h | h
          · exact absurd h hi0
          · rw [h]
            rfl
      · rw [boundaryAt]
        have hne0 : i + (c :: cs).length ≠ 0 := by
          rw [List.length_cons]
          omega
        have hidx : i + (c :: cs).length - 1 = i + cs.length := by
          rw [List.length_cons]
          omega
        rw [if_neg hne0, hidx, hwordlast, hb2]
        rfl

/-- Claim C4: lexical hedge matching is word-boundary-bounded on both sides:
for any pattern shaped like the hedge markers (non-empty, starting and ending
in word characters — checked for the whole lowered lexicon in the second
conjunct), the regex search succeeds exactly on whole-word/whole-phrase
occurrences; and the spec example "The mayor said it might rain" counts 1
("might" matches, "may" inside "mayor" does not). -/
theorem C4_word_boundaries :
    (∀ s pat : List Char, pat ≠ [] →
        isWordChar (pat.headD ' ') = true →
        isWordChar (pat.getLastD ' ') = true →
        (wordBoundedMatch s pat = true ↔ occursAsWord pat s))
      ∧ (hedge_words.all fun w =>
          !(lowerList w.toList).isEmpty
            && isWordChar ((lowerList w.toList).headD ' ')
            && isWordChar ((lowerList w.toList).getLastD ' ')) = true
      ∧ detect_specific_hedges "The mayor said it might rain" = 1 :=
  ⟨wordBoundedMatch_iff, by decide, by decide⟩

/-- Claim C4, witness: the characterization applied to the marker "might" and
the spec's example answer. -/
theorem C4_witness :
    wordBoundedMatch (lowerList "The mayor said it might rain".toList)
        (lowerList "might".toList) = true ↔
      occursAsWord (lowerList "might".toList)
        (lowerList "The mayor said it might rain".toList) :=
  C4_word_boundaries.1 _ _ (by decide) (by decide) (by decide)
